import Mathlib

/-!
# Verification of the majikari-web entity-resolution and landed-cost core

Shallow embedding of the matching engine (`src/app/api/listings/[productId]/route.ts`,
the match-verification test suite) and the landed-cost calculator
(`src/lib/proxy-costs.ts`, constants from `src/lib/constants.ts`).

Modelling conventions:
* JPY amounts are `ℤ`; rates and weights are `ℚ` (the source uses JS numbers; all
  constants involved are exactly representable and no computation in the claims
  hits a binary-rounding boundary).
* `Math.round x` in JS rounds half toward +∞, i.e. `⌊x + 1/2⌋`: `jsRound`.
* JS strings are Lean `String`s; `String.length` is used for `.length` (all text in
  play is BMP, where JS UTF-16 length equals the codepoint count).
-/

namespace Majikari

/-- JS `Math.round`: round half toward +∞. -/
def jsRound (q : ℚ) : ℤ := ⌊q + 1/2⌋

/-- JS `Math.round(x * 100) / 100` (round to 2 decimal places). -/
def round2 (q : ℚ) : ℚ := (jsRound (q * 100) : ℚ) / 100

theorem jsRound_nonneg {q : ℚ} (h : 0 ≤ q) : 0 ≤ jsRound q := by
  have : (0 : ℤ) ≤ ⌊q + 1/2⌋ := Int.le_floor.2 (by push_cast; linarith)
  simpa [jsRound] using this

theorem jsRound_mono {a b : ℚ} (h : a ≤ b) : jsRound a ≤ jsRound b :=
  Int.floor_le_floor (by linarith)

theorem round2_mono {a b : ℚ} (h : a ≤ b) : round2 a ≤ round2 b := by
  have h1 := jsRound_mono (show a * 100 ≤ b * 100 by linarith)
  have h2 : ((jsRound (a * 100) : ℚ)) ≤ (jsRound (b * 100) : ℚ) := by exact_mod_cast h1
  unfold round2
  linarith

theorem round2_add_half (q : ℚ) : round2 (q + 1/2) = round2 q + 1/2 := by
  unfold round2 jsRound
  have h : (q + 1/2) * 100 + 1/2 = (q * 100 + 1/2) + (50 : ℤ) := by push_cast; ring
  rw [h, Int.floor_add_int]
  push_cast
  ring

/-! ## Constants (`src/lib/constants.ts`) -/

def JPY_USD_RATE : ℚ := 155

structure ProxyService where
  name : String
  serviceFee : ℤ
  fxMarkup : ℚ
  paymentFee : ℚ
deriving DecidableEq, Repr

/-- `PROXY_SERVICES`, in object-literal insertion order (the iteration order of
`Object.entries`). The `url` field is presentation-only and omitted. -/
def PROXY_SERVICES : List (String × ProxyService) :=
  [ ("buyee",     ⟨"Buyee",     500, 35/1000, 3/100⟩),
    ("zenmarket", ⟨"ZenMarket", 300, 3/100,   35/1000⟩),
    ("fromjapan", ⟨"FromJapan", 200, 8/100,   0⟩),
    ("neokyo",    ⟨"Neokyo",    350, 0,       29/1000⟩) ]

/-- `EMS_SHIPPING_TIERS`: `[maxWeightKg, costJpy]` pairs. -/
def EMS_SHIPPING_TIERS : List (ℚ × ℤ) :=
  [(1/2, 2000), (1, 2900), (3/2, 3700), (2, 4500), (3, 5900), (5, 8700)]

def DOMESTIC_SHIPPING_JPY : ℤ := 700
def DEFAULT_ITEM_WEIGHT_KG : ℚ := 4/5
def US_DE_MINIMIS_USD : ℚ := 800
def US_DUTY_RATE : ℚ := 45/1000

/-! ## Landed-cost calculator (`src/lib/proxy-costs.ts`) -/

/-- Loop body of `estimateShipping`: first tier whose breakpoint is ≥ the weight,
else the flat over-5kg estimate. -/
def estimateShippingGo (weightKg : ℚ) : List (ℚ × ℤ) → ℤ
  | [] => 10500
  | (tierKg, cost) :: rest =>
      if weightKg ≤ tierKg then cost else estimateShippingGo weightKg rest

def estimateShipping (weightKg : ℚ) : ℤ :=
  estimateShippingGo weightKg EMS_SHIPPING_TIERS

structure CostBreakdown where
  proxy : String
  item_jpy : ℤ
  fees_jpy : ℤ
  shipping_jpy : ℤ
  duty_jpy : ℤ
  total_jpy : ℤ
  total_usd : ℚ
deriving DecidableEq, Repr

structure CostEstimates where
  cheapest_proxy : String
  cheapest_total_jpy : ℤ
  cheapest_total_usd : ℚ
  most_expensive_proxy : String
  most_expensive_total_jpy : ℤ
  savings_jpy : ℤ
  savings_usd : ℚ
  breakdown : List (String × CostBreakdown)
deriving DecidableEq, Repr

/-- Per-service body of the loop in `calculateProxyCosts`. -/
def serviceBreakdown (proxy : ProxyService) (priceJpy : ℤ) (weightKg : ℚ) : CostBreakdown :=
  let shipping := estimateShipping weightKg
  let subtotal := priceJpy + DOMESTIC_SHIPPING_JPY
  let service := proxy.serviceFee
  let fx := jsRound ((subtotal : ℚ) * proxy.fxMarkup)
  let payment := jsRound ((subtotal : ℚ) * proxy.paymentFee)
  let preDuty := subtotal + service + fx + payment + shipping
  let totalUsdPreDuty := (preDuty : ℚ) / JPY_USD_RATE
  let duty : ℤ :=
    if US_DE_MINIMIS_USD < totalUsdPreDuty then
      jsRound ((totalUsdPreDuty - US_DE_MINIMIS_USD) * US_DUTY_RATE * JPY_USD_RATE)
    else 0
  let totalJpy := preDuty + duty
  { proxy := proxy.name
    item_jpy := priceJpy
    fees_jpy := service + fx + payment
    shipping_jpy := shipping + DOMESTIC_SHIPPING_JPY
    duty_jpy := duty
    total_jpy := totalJpy
    total_usd := round2 ((totalJpy : ℚ) / JPY_USD_RATE) }

/-- One step of the running-cheapest accumulator. The source initialises
`cheapestTotal` to `Infinity`, modelled as `none`; `totalJpy < Infinity` is
always true. Strict `<` means ties keep the earlier service. -/
def cheapStep (st : String × Option ℤ) (b : CostBreakdown) : String × Option ℤ :=
  if (match st.2 with | none => true | some c => decide (b.total_jpy < c)) then
    (b.proxy, some b.total_jpy)
  else st

/-- One step of the running-most-expensive accumulator (source initialises to 0;
strict `>` keeps the earlier service on ties). -/
def expStep (st : String × ℤ) (b : CostBreakdown) : String × ℤ :=
  if st.2 < b.total_jpy then (b.proxy, b.total_jpy) else st

/-- `calculateProxyCosts`. The source computes the breakdown and the
cheapest/most-expensive accumulators in a single loop over `PROXY_SERVICES`;
the loop is pure per iteration, so building the breakdown list first and then
folding the two accumulators over it is the same computation. -/
def calculateProxyCosts (priceJpy : ℤ) (weightKg : ℚ) : CostEstimates :=
  let breakdown := PROXY_SERVICES.map (fun kv => (kv.1, serviceBreakdown kv.2 priceJpy weightKg))
  let bs := breakdown.map (·.2)
  let cheap := bs.foldl cheapStep ("", none)
  let most := bs.foldl expStep ("", 0)
  let cheapestTotal := cheap.2.getD 0
  { cheapest_proxy := cheap.1
    cheapest_total_jpy := cheapestTotal
    cheapest_total_usd := round2 ((cheapestTotal : ℚ) / JPY_USD_RATE)
    most_expensive_proxy := most.1
    most_expensive_total_jpy := most.2
    savings_jpy := most.2 - cheapestTotal
    savings_usd := round2 (((most.2 - cheapestTotal : ℤ) : ℚ) / JPY_USD_RATE)
    breakdown := breakdown }

/-! ## JS string primitives

The matcher operates on mixed Japanese/English strings. We model the JS string
operations used by the source: `toLowerCase` (ASCII and fullwidth Latin — the
only cased scripts appearing in the data), `trim`, `includes` (substring
containment), `split(/\s+/)` and the character classes of the regexes. -/

/-- `toLowerCase` restricted to ASCII `A–Z` and fullwidth `Ａ–Ｚ` (both map by +32
in JS; no other cased characters occur in the catalog/listing scripts). -/
def jsToLowerChar (c : Char) : Char :=
  if 65 ≤ c.toNat ∧ c.toNat ≤ 90 then Char.ofNat (c.toNat + 32)
  else if 0xFF21 ≤ c.toNat ∧ c.toNat ≤ 0xFF3A then Char.ofNat (c.toNat + 32)
  else c

def toLowerJS (s : String) : String := ⟨s.data.map jsToLowerChar⟩

/-- JS `\s` / `trim` whitespace for the characters that can occur here
(ASCII whitespace, NBSP, ideographic space). -/
def isWsJS (c : Char) : Bool :=
  c = ' ' ∨ c = '\t' ∨ c = '\n' ∨ c = '\r' ∨ c.toNat = 0x0b ∨ c.toNat = 0x0c ∨
  c.toNat = 0xa0 ∨ c.toNat = 0x3000

def trimJS (s : String) : String :=
  ⟨((s.data.dropWhile (isWsJS ·)).reverse.dropWhile (isWsJS ·)).reverse⟩

/-- `pat` occurs as a contiguous sublist of `l` (JS `String.prototype.includes`). -/
def containsSubL (l pat : List Char) : Bool :=
  match l with
  | [] => pat.isEmpty
  | _ :: rest => pat.isPrefixOf l || containsSubL rest pat

def containsSub (text pat : String) : Bool := containsSubL text.data pat.data

def startsWithL (l pat : List Char) : Bool := pat.isPrefixOf l

/-- Accumulator pass of `split(/\s+/)`: `acc` holds the current word reversed. -/
def splitWsAux : List Char → List Char → List String
  | [], acc => if acc.isEmpty then [] else [⟨acc.reverse⟩]
  | c :: rest, acc =>
    if isWsJS c then
      if acc.isEmpty then splitWsAux rest [] else ⟨acc.reverse⟩ :: splitWsAux rest []
    else splitWsAux rest (c :: acc)

/-- `split(/\s+/)` dropping empty fragments. (JS keeps a leading `""` fragment
when the string starts with whitespace; every call site either trims first or
immediately discards fragments shorter than the word-length minimum, which
covers `""`, so the behaviours coincide.) -/
def splitWsL (l : List Char) : List String := splitWsAux l []

def splitWsJS (s : String) : List String := splitWsL s.data

/-- JS `String.prototype.replace` with a plain-string pattern: replace the first
occurrence only (used as `category.replace(' ', '_')`). -/
def replaceFirstL (l pat rep : List Char) : List Char :=
  match l with
  | [] => []
  | c :: rest =>
    if pat.isPrefixOf l then rep ++ l.drop pat.length
    else c :: replaceFirstL rest pat rep

def replaceFirst (s pat rep : String) : String := ⟨replaceFirstL s.data pat.data rep.data⟩

/-! ## Text normalizer `norm` (identical in route.ts and the test suite) -/

/-- Word characters of JS `\w`: `[A-Za-z0-9_]`. -/
def isWordChar (c : Char) : Bool :=
  ('a' ≤ c ∧ c ≤ 'z') ∨ ('A' ≤ c ∧ c ≤ 'Z') ∨ ('0' ≤ c ∧ c ≤ '9') ∨ c = '_'

/-- Characters kept by `norm`'s character class: `\w`, Hiragana `぀-ゟ`,
Katakana `゠-ヿ`, CJK unified `一-鿿`, fullwidth forms
`＀-￯`. -/
def isKeptChar (c : Char) : Bool :=
  isWordChar c ∨
  (0x3040 ≤ c.toNat ∧ c.toNat ≤ 0x309f) ∨ (0x30a0 ≤ c.toNat ∧ c.toNat ≤ 0x30ff) ∨
  (0x4e00 ≤ c.toNat ∧ c.toNat ≤ 0x9fff) ∨ (0xff00 ≤ c.toNat ∧ c.toNat ≤ 0xffef)

def isOpenParen (c : Char) : Bool := c = '(' ∨ c.toNat = 0xff08
def isCloseParen (c : Char) : Bool := c = ')' ∨ c.toNat = 0xff09

/-- Suffix after the first closing parenthesis, if any. -/
def afterClose : List Char → Option (List Char)
  | [] => none
  | c :: rest => if isCloseParen c then some rest else afterClose rest

theorem afterClose_length : ∀ {l r : List Char}, afterClose l = some r → r.length < l.length := by
  intro l
  induction l with
  | nil => intro r h; simp [afterClose] at h
  | cons c rest ih =>
    intro r h
    simp only [afterClose] at h
    by_cases hc : isCloseParen c = true
    · simp [hc] at h; subst h; simp
    · simp [hc] at h
      have := ih h
      simp only [List.length_cons]
      omega

/-- `replace(/[（(][^）)]*[）)]/g, '')`: each match runs from an opening
parenthesis through the first closing parenthesis after it (the greedy
`[^）)]*` stops exactly before it); an opening with no closing ahead does not
match and the character is kept.

Worker for `stripParens`, structurally recursive on a fuel argument so that
it reduces inside the kernel. Each step consumes at least one character, so
fuel `l.length` is never exhausted; the fuel-0 branch is unreachable. -/
def stripParensF : Nat → List Char → List Char
  | 0, l => l
  | _ + 1, [] => []
  | fuel + 1, c :: rest =>
    match afterClose rest with
    | some r => if isOpenParen c then stripParensF fuel r else c :: stripParensF fuel rest
    | none => c :: stripParensF fuel rest

def stripParens (l : List Char) : List Char := stripParensF l.length l

/-- `norm` from the source: lowercase, strip parentheticals, replace characters
outside the kept classes with a space, collapse whitespace runs, trim. -/
def norm (text : String) : String :=
  let lowered := (toLowerJS text).data
  let parens := stripParens lowered
  let spaced := parens.map (fun c => if isKeptChar c then c else ' ')
  -- collapse `\s+` to a single space, then trim
  let words := splitWsL spaced
  String.intercalate " " words

/-! ## Keyword tables (identical in route.ts and the test suite) -/

def NON_FIGURE_KEYWORDS : List String :=
  [ "アクリルスタンド", "アクスタ", "アクリルキーホルダー", "アクキー",
    "キーホルダー", "ストラップ", "缶バッジ", "ピンバッジ",
    "Tシャツ", "パーカー", "タオル", "ブランケット",
    "ぬいぐるみ", "マスコット", "クッション",
    "ポスター", "タペストリー", "クリアファイル",
    "カード", "ブロマイド", "チェキ", "色紙",
    "同人誌", "漫画", "画集", "小説",
    "ラバーストラップ", "ラバスト", "ラバキー",
    "ステッカー", "シール", "マグカップ", "コースター" ]

def FIGURE_SUBTYPE_KEYWORDS : List (String × List String) :=
  [ ("nendoroid", ["ねんどろいど", "nendoroid", "ネンドロイド"]),
    ("figma", ["figma", "フィグマ"]),
    ("pop_up_parade", ["pop up parade", "POP UP PARADE", "ポップアップパレード"]),
    ("scale", ["スケール", "1/7", "1/8", "1/4", "1/6", "scale"]),
    ("prize", ["プライズ", "一番くじ", "コアフル", "coreful", "ちょこのせ", "SPM", "EXQ", "Luminasta"]) ]

/-- The recognized keywords for a given subtype tag (empty for strings that
are not a tag of the table). -/
def subtypeKeywordsOf (tag : String) : List String :=
  ((FIGURE_SUBTYPE_KEYWORDS.find? (fun e => e.1 == tag)).map (·.2)).getD []

/-- Generic figure keywords (route.ts only; the test suite's detector stops at
the subtype tables). -/
def FIGURE_KEYWORDS : List String :=
  [ "フィギュア", "figure", "スケール", "scale",
    "ねんどろいど", "nendoroid", "figma",
    "POP UP PARADE", "プライズ", "一番くじ",
    "コアフル", "coreful", "ちょこのせ" ]

def FIGURE_CATEGORIES : List String :=
  [ "nendoroid", "figma", "pop up parade", "nendoroid doll",
    "1/7th scale", "1/8th scale", "1/4th scale", "1/6th scale",
    "other scale", "action figure", "soft vinyl", "harmonia bloom" ]

/-! ## Score representation

The source accumulates float increments 0.5, 0.4, 0.35, 0.3, 0.2, 0.15, 0.1
and finally stores `Math.round(score * 100) / 100`. Every increment is an exact
multiple of 0.01, so the accumulated value is exactly representable in
hundredths; we embed scores as integers counting hundredths (`50` for `0.5`,
etc.), under which the final two-decimal rounding is the identity and
the threshold comparisons (`>= 0.8`, `>= 0.3`, `>= 0.5`) become integer
comparisons (`80`, `30`, `50`). This ordering-preserving change of unit keeps
every comparison and sum of the source exact. -/

/-! ## Product-type classifier -/

structure DetectResult where
  type : String
  keywords : List String
deriving DecidableEq, Repr

/-- Inner loop over the subtype-keyword table: first subtype (in table order)
one of whose keywords occurs in the lowered name, together with that keyword. -/
def subtypeHit (nameLower : String) : List (String × List String) → Option (String × String)
  | [] => none
  | (st, kws) :: rest =>
    match kws.find? (fun kw => containsSub nameLower (toLowerJS kw)) with
    | some kw => some (st, kw)
    | none => subtypeHit nameLower rest

/-- `detectListingType` from route.ts: merch keywords dominate, then figure
subtypes in table order, then generic figure keywords, else `"unknown"`. -/
def detectListingType (name : String) : DetectResult :=
  let nameLower := toLowerJS name
  match NON_FIGURE_KEYWORDS.find? (fun kw => containsSub nameLower (toLowerJS kw)) with
  | some kw => ⟨"merch", [kw]⟩
  | none =>
    match subtypeHit nameLower FIGURE_SUBTYPE_KEYWORDS with
    | some (st, kw) => ⟨st, [kw]⟩
    | none =>
      match FIGURE_KEYWORDS.find? (fun kw => containsSub nameLower (toLowerJS kw)) with
      | some kw => ⟨"figure", [kw]⟩
      | none => ⟨"unknown", []⟩

/-- `detectListingType` from the test suite: same as route.ts but with no
generic-figure pass (falls through to `"unknown"`). -/
def detectListingTypeTest (name : String) : DetectResult :=
  let nameLower := toLowerJS name
  match NON_FIGURE_KEYWORDS.find? (fun kw => containsSub nameLower (toLowerJS kw)) with
  | some kw => ⟨"merch", [kw]⟩
  | none =>
    match subtypeHit nameLower FIGURE_SUBTYPE_KEYWORDS with
    | some (st, kw) => ⟨st, [kw]⟩
    | none => ⟨"unknown", []⟩

structure CompatResult where
  ok : Bool
  bonus : ℤ
deriving DecidableEq, Repr

/-- `categoryCompatible` (identical in route.ts and the test suite); bonus in
hundredths. -/
def categoryCompatible (productCategory listingType : String) : CompatResult :=
  let cat := toLowerJS productCategory
  if listingType == "merch" && FIGURE_CATEGORIES.contains cat then ⟨false, 0⟩
  else if cat == "nendoroid" && listingType == "nendoroid" then ⟨true, 50⟩
  else if cat == "figma" && listingType == "figma" then ⟨true, 50⟩
  else if cat == "pop up parade" && listingType == "pop_up_parade" then ⟨true, 50⟩
  else if containsSub cat "scale" && listingType == "scale" then ⟨true, 30⟩
  else
    let figureSubtypes : List String := ["nendoroid", "figma", "pop_up_parade", "scale", "prize"]
    let catSubtype : Option String :=
      if containsSub cat "nendoroid" then some "nendoroid"
      else if cat == "figma" then some "figma"
      else if containsSub cat "pop up parade" then some "pop_up_parade"
      else if containsSub cat "scale" then some "scale"
      else none
    if figureSubtypes.contains listingType && FIGURE_CATEGORIES.contains cat &&
        (match catSubtype with | some cs => cs != listingType | none => false) then
      ⟨false, 0⟩
    else if FIGURE_CATEGORIES.contains cat then
      ⟨true, if listingType == "figure" then 10 else 0⟩
    else ⟨true, 0⟩

/-! ## Risk assessment (route.ts `assessRisk`) -/

structure RawListing where
  id : String
  name : String
  price : ℤ
  condition : Option String
  thumbnails : List String
deriving DecidableEq, Repr

/-- High-severity risk conditions: the flags whose text contains `'bootleg'`,
`'Junk'` or `'Suspiciously'` — i.e. the bootleg, junk and
suspiciously-cheap conditions. -/
def highSeverity (l : RawListing) : Bool :=
  let name := toLowerJS l.name
  decide (l.price < 500) || containsSub name "ジャンク" || containsSub name "junk" ||
  containsSub name "コピー" || containsSub name "海賊"

/-- The flag-accumulation phase of `assessRisk` (each `flags.push` modelled as
an appended singleton, in source order). -/
def riskFlags (l : RawListing) : List String :=
  let name := toLowerJS l.name
  (if l.price < 500 then ["Suspiciously cheap"] else []) ++
  (if 50000 < l.price then ["Premium price — verify"] else []) ++
  (if l.condition.getD "" = "" then ["Condition not specified"] else []) ++
  (if containsSub name "ジャンク" || containsSub name "junk" then ["Junk/damaged"] else []) ++
  (if containsSub name "コピー" || containsSub name "海賊" then ["Possible bootleg"] else []) ++
  (if containsSub name "まとめ" || containsSub name "セット" || containsSub name "lot" then
    ["Bundle listing"] else []) ++
  (if containsSub name "パーツ" || containsSub name "parts" then ["Parts only"] else []) ++
  (if containsSub name "箱なし" || containsSub name "箱無し" then ["No box"] else [])

/-- The predicate of the source's high-risk check:
`flags.some(f => f.includes('bootleg') || f.includes('Junk') || f.includes('Suspiciously'))`. -/
def highFlagB (f : String) : Bool :=
  containsSub f "bootleg" || containsSub f "Junk" || containsSub f "Suspiciously"

/-- The tier-selection phase of `assessRisk`. -/
def riskOf (flags : List String) : String :=
  if flags.isEmpty then "low"
  else if flags.any highFlagB then "high"
  else "medium"

def assessRisk (l : RawListing) : String × List String :=
  (riskOf (riskFlags l), riskFlags l)

/-! ## Bare-name extraction (regex prefix/suffix strips) -/

def isDigitChar (c : Char) : Bool := '0' ≤ c ∧ c ≤ '9'

def startsWithCI (l : List Char) (pat : String) : Bool :=
  startsWithL (l.map jsToLowerChar) pat.data

/-- Length of a `1\/\d+th Scale` match at the start of the list (patterns given
to the matchers below are pre-lowered; `l` is compared case-insensitively). -/
def scaleHeadLen (l : List Char) : Option Nat :=
  if startsWithCI l "1/" then
    let ds := (l.drop 2).takeWhile (isDigitChar ·)
    if 1 ≤ ds.length ∧ startsWithCI (l.drop (2 + ds.length)) "th scale" then
      some (2 + ds.length + 8)
    else none
  else none

/-- `^(Nendoroid|figma|POP UP PARADE|PLAMAX|Nendoroid Doll|1\/\d+th Scale)` with
`/i`: ordered alternation, first alternative that matches at position 0 wins
(so the `Nendoroid Doll` branch is shadowed by `Nendoroid`, exactly as in the
JS regex). Returns the matched length. -/
def enHeadLen (l : List Char) : Option Nat :=
  if startsWithCI l "nendoroid" then some 9
  else if startsWithCI l "figma" then some 5
  else if startsWithCI l "pop up parade" then some 13
  else if startsWithCI l "plamax" then some 6
  else if startsWithCI l "nendoroid doll" then some 14
  else scaleHeadLen l

/-- Strip the matched subtype prefix and the following `\s*`. -/
def dropSubtypeHeadEn (s : String) : String :=
  match enHeadLen s.data with
  | some n => ⟨(s.data.drop n).dropWhile (isWsJS ·)⟩
  | none => s

/-- `^(ねんどろいど|figma|POP UP PARADE|ねんどろいどどーる)\s*` with `/i`. -/
def jpHeadLen (l : List Char) : Option Nat :=
  if startsWithCI l "ねんどろいど" then some 6
  else if startsWithCI l "figma" then some 5
  else if startsWithCI l "pop up parade" then some 13
  else if startsWithCI l "ねんどろいどどーる" then some 9
  else none

def dropSubtypeHeadJp (s : String) : String :=
  match jpHeadLen s.data with
  | some n => ⟨(s.data.drop n).dropWhile (isWsJS ·)⟩
  | none => s

/-- Condition after a matched dash/colon for the EN version-suffix regex
`\s*[\-—:]\s*(.*Ver\.?|Special|DX|Bonus|Limited|Complete).*$`: the remainder
contains `ver` (the greedy `.*Ver\.?` branch) or, after `\s*`, starts with one
of the literal alternatives. -/
def tailCondEn (rest : List Char) : Bool :=
  let r := rest.dropWhile (isWsJS ·)
  containsSubL (rest.map jsToLowerChar) "ver".data ||
  ["special", "dx", "bonus", "limited", "complete"].any (fun p => startsWithCI r p)

/-- Leftmost qualifying dash/colon for the EN suffix strip; returns the kept
prefix (the whitespace run immediately before the dash belongs to the match's
leading `\s*` and is removed too). `pre` is the reversed prefix scanned so far. -/
def scanCutEn : List Char → List Char → Option (List Char)
  | _, [] => none
  | pre, c :: rest =>
    if (c = '-' ∨ c = '—' ∨ c = ':') ∧ tailCondEn rest then
      some (pre.dropWhile (isWsJS ·)).reverse
    else scanCutEn (c :: pre) rest

def dropVersionTailEn (s : String) : String :=
  match scanCutEn [] s.data with
  | some kept => ⟨kept⟩
  | none => s

/-- Condition for the JP suffix regex `\s*[\-—:：].*(Ver|バージョン|限定|完全版).*$`:
the remainder contains one of the alternatives (case-insensitively). -/
def tailCondJp (rest : List Char) : Bool :=
  let low := rest.map jsToLowerChar
  containsSubL low "ver".data || containsSubL low "バージョン".data ||
  containsSubL low "限定".data || containsSubL low "完全版".data

def scanCutJp : List Char → List Char → Option (List Char)
  | _, [] => none
  | pre, c :: rest =>
    if (c = '-' ∨ c = '—' ∨ c = ':' ∨ c.toNat = 0xff1a) ∧ tailCondJp rest then
      some (pre.dropWhile (isWsJS ·)).reverse
    else scanCutJp (c :: pre) rest

def dropVersionTailJp (s : String) : String :=
  match scanCutJp [] s.data with
  | some kept => ⟨kept⟩
  | none => s

/-! ## route.ts scoring (`matchListings` loop body) -/

structure Product where
  id : String
  name : String
  name_jp : Option String
  series : Option String
  series_jp : Option String
  category : Option String
deriving DecidableEq, Repr

/-- One match result (`results.push({...})` in route.ts). `score` is stored in
hundredths; the source's `Math.round(score * 100) / 100` is the identity under
this representation. -/
structure MatchResult where
  listing_id : String
  name : String
  price : ℤ
  condition : Option String
  image : Option String
  url : String
  score : ℤ
  match_reason : String
  listing_type : String
  risk : String
  risk_flags : List String
deriving DecidableEq, Repr

structure PartScore where
  sc : ℤ
  rs : List String
  ident : Bool
deriving DecidableEq, Repr

/-- JP-name block of the route.ts loop: full normalized-name containment
(+0.40) or per-word containment (+0.15 each, words of normalized length ≥ 2). -/
def jpScorePart (jpName ln : String) : PartScore :=
  if jpName ≠ "" ∧ 2 ≤ (norm jpName).length then
    let jpNorm := norm jpName
    if containsSub ln jpNorm then ⟨40, ["JP: " ++ jpName], true⟩
    else
      (splitWsJS jpName).foldl
        (fun ps word =>
          let wn := norm word
          if 2 ≤ wn.length ∧ containsSub ln wn = true then
            ⟨ps.sc + 15, ps.rs ++ ["JP-w: " ++ word], true⟩
          else ps)
        ⟨0, [], false⟩
  else ⟨0, [], false⟩

def EN_STOP_WORDS : List String :=
  ["the", "and", "ver", "version", "with", "from", "figure", "new", "vol"]

/-- EN-name block: full lowercased-name containment (+0.35) or per-word
containment (+0.10 each, non-stop words of length ≥ 4). -/
def enScorePart (enName ln : String) : PartScore :=
  if enName ≠ "" ∧ 4 ≤ enName.length then
    let enLower := toLowerJS enName
    if containsSub ln enLower then ⟨35, ["EN: " ++ enName], true⟩
    else
      (splitWsJS enLower).foldl
        (fun ps word =>
          if 4 ≤ word.length ∧ ¬ EN_STOP_WORDS.contains word ∧ containsSub ln word = true then
            ⟨ps.sc + 10, ps.rs ++ ["EN-w: " ++ word], true⟩
          else ps)
        ⟨0, [], false⟩
  else ⟨0, [], false⟩

/-- Series block: EN series containment (+0.10) else JP series containment
(+0.10); JS truthiness of the optional fields is "present and nonempty". -/
def seriesPart (series seriesJp : Option String) (ln : String) : ℤ × List String :=
  if (match series with
      | some s => !s.isEmpty && decide (3 ≤ (norm s).length) && containsSub ln (norm s)
      | none => false) then (10, ["Series"])
  else if (match seriesJp with
      | some s => !s.isEmpty && decide (2 ≤ (norm s).length) && containsSub ln (norm s)
      | none => false) then (10, ["Series-JP"])
  else (0, [])

/-- Product categories treated as "specific subtype" by the route.ts strict
gate. -/
def specificSubtypes : List String :=
  [ "nendoroid", "figma", "pop up parade", "pop_up_parade",
    "1/7th scale", "1/8th scale", "1/4th scale", "1/6th scale" ]

def joinPlus (rs : List String) : String := String.intercalate " + " rs

/-- Body of the per-listing loop in route.ts `matchListings`: gates, scoring,
strict gate for generic listings against specific-subtype products, 0.30
acceptance threshold, risk annotation. `none` models `continue`. -/
def scoreOne (category enName jpName : String) (series seriesJp : Option String)
    (l : RawListing) : Option MatchResult :=
  let ln := norm l.name
  let dt := detectListingType l.name
  let cc := categoryCompatible category dt.type
  if cc.ok then
    let jp := jpScorePart jpName ln
    let en := enScorePart enName ln
    if jp.ident || en.ident then
      let ser := seriesPart series seriesJp ln
      let score := cc.bonus + jp.sc + en.sc + ser.1
      let reasons := (if 0 < cc.bonus then ["Type:" ++ dt.type] else []) ++ jp.rs ++ en.rs ++ ser.2
      let productIsSpecific := specificSubtypes.contains category
      let listingIsGeneric := dt.type == "figure" || dt.type == "unknown"
      if productIsSpecific && listingIsGeneric && decide (score < 80) then none
      else if score < 30 then none
      else
        let ar := assessRisk l
        some { listing_id := l.id, name := l.name, price := l.price,
               condition := l.condition, image := l.thumbnails.head?,
               url := "https://jp.mercari.com/item/" ++ l.id,
               score := score, match_reason := joinPlus reasons,
               listing_type := dt.type, risk := ar.1, risk_flags := ar.2 }
    else none
  else none

/-- Result ordering of route.ts: `(a, b) => b.score - a.score || a.price - b.price`,
i.e. descending score with ascending price among equal scores. -/
def resLE (a b : MatchResult) : Prop :=
  b.score < a.score ∨ (a.score = b.score ∧ a.price ≤ b.price)

instance : DecidableRel resLE := fun a b => by unfold resLE; infer_instance

instance : IsTotal MatchResult resLE := ⟨fun a b => by unfold resLE; omega⟩

instance : IsTrans MatchResult resLE :=
  ⟨fun a b c h1 h2 => by unfold resLE at h1 h2 ⊢; omega⟩

/-- `matchListings` from route.ts. JS `Array.prototype.sort` is stable
(ES2019+) and the comparator is a total preorder, so its output is the unique
stable sort, which `List.insertionSort` computes. -/
def matchListings (product : Product) (allListings : List RawListing) : List MatchResult :=
  let category := toLowerJS (product.category.getD "")
  let enName := trimJS (dropVersionTailEn (dropSubtypeHeadEn product.name))
  let jpName := trimJS (dropVersionTailJp (dropSubtypeHeadJp (product.name_jp.getD "")))
  let results := allListings.filterMap
    (scoreOne category enName jpName product.series product.series_jp)
  (results.insertionSort resLE).take 10

/-! ## Test-suite scorer (`matchScore` with version awareness) -/

structure ScoreProduct where
  name : String
  name_jp : Option String
  category : String
deriving DecidableEq, Repr

structure ScoreOut where
  score : ℤ
  reasons : List String
  matched : Bool
deriving DecidableEq, Repr

def specificTypes : List String := ["nendoroid", "figma", "pop up parade"]

deriving instance DecidableEq for Except

/-- Gates and identity stage of the test-suite `matchScore` (everything before
the version loop); `Except.error` carries the rejection reasons. Note
`category.replace(' ', '_')` in JS replaces the first space only. -/
def matchScorePre (product : ScoreProduct) (listingName : String) :
    Except (List String) (ℤ × List String) :=
  let ln := norm listingName
  let category := toLowerJS product.category
  let dt := detectListingTypeTest listingName
  let cc := categoryCompatible category dt.type
  if !cc.ok then .error ["Type mismatch"]
  else if specificTypes.contains category ∧ dt.type ≠ replaceFirst category " " "_" ∧
      dt.type ≠ category then
    .error ["Listing lacks " ++ category ++ " keyword"]
  else
    let s0 := cc.bonus
    let rs0 := if 0 < cc.bonus then ["Type:" ++ dt.type] else []
    let enName := trimJS (dropVersionTailEn (dropSubtypeHeadEn product.name))
    let jpName := product.name_jp.getD ""
    let jpHit := jpName ≠ "" ∧ 2 ≤ (norm jpName).length ∧ containsSub ln (norm jpName) = true
    let s1 := if jpHit then s0 + 40 else s0
    let rs1 := if jpHit then rs0 ++ ["JP: " ++ jpName] else rs0
    let enHit := enName ≠ "" ∧ 4 ≤ enName.length ∧ containsSub ln (toLowerJS enName) = true
    let s2 := if enHit then s1 + 35 else s1
    let rs2 := if enHit then rs1 ++ ["EN: " ++ enName] else rs1
    if jpHit ∨ enHit then .ok (s2, rs2) else .error ["No identity match"]

/-- Scan for `(\w+)\s*pat` (case-insensitive, `l` pre-lowered): backtracking
order of the greedy `\w+` — longest split of the word run first. -/
def greedyJ (run after : List Char) (pat : String) : Nat → Option Nat
  | 0 => none
  | j + 1 =>
    if startsWithL ((run.drop (j + 1) ++ after).dropWhile (isWsJS ·)) pat.data then some (j + 1)
    else greedyJ run after pat j

/-- Leftmost match of `(\w+)\s*pat`; returns the captured `\w+` text. -/
def wordCapture (pat : String) : List Char → Option (List Char)
  | [] => none
  | c :: rest =>
    if isWordChar c then
      let run := (c :: rest).takeWhile (isWordChar ·)
      let after := (c :: rest).dropWhile (isWordChar ·)
      match greedyJ run after pat run.length with
      | some j => some (run.take j)
      | none => wordCapture pat rest
    else wordCapture pat rest

/-- Leftmost match of a two-alternative pattern `(a|b)` (`l` pre-lowered, both
alternatives pre-lowered, first alternative tried first at each position);
returns the matched alternative — which is what `match[1].toLowerCase()`
evaluates to. -/
def pairCaptureL (a b : String) : List Char → Option String
  | [] => none
  | c :: rest =>
    if startsWithL (c :: rest) a.data then some a
    else if startsWithL (c :: rest) b.data then some b
    else pairCaptureL a b rest

/-- The captured (lowercased) version terms of the seven `versionPatterns`, in
pattern order, for patterns that match the product name. -/
def versionCaptures (name : String) : List String :=
  let lower := (toLowerJS name).data
  [ (wordCapture "ver" lower).map (fun cs => (⟨cs⟩ : String)),
    (wordCapture "バージョン" lower).map (fun cs => (⟨cs⟩ : String)),
    pairCaptureL "lostword" "ロストワード" lower,
    pairCaptureL "wedding" "ウェディング" lower,
    pairCaptureL "swimsuit" "水着" lower,
    pairCaptureL "casual" "私服" lower,
    pairCaptureL "formal dress" "フォーマル" lower ].reduceOption

/-- Version loop body: +0.20 when the listing text contains the version term,
−0.30 when it is missing. -/
def versionStep (ln : String) (acc : ℤ × List String) (v : String) : ℤ × List String :=
  if containsSub ln v then (acc.1 + 20, acc.2 ++ ["Version: " ++ v])
  else (acc.1 - 30, acc.2 ++ ["Missing version: " ++ v])

/-- The test-suite `matchScore`: gates/identity, then the version loop, then
the 0.50 acceptance threshold. -/
def matchScore (product : ScoreProduct) (listingName : String) : ScoreOut :=
  match matchScorePre product listingName with
  | .error rs => ⟨0, rs, false⟩
  | .ok (s, rs) =>
    let fin := (versionCaptures product.name).foldl (versionStep (norm listingName)) (s, rs)
    ⟨fin.1, fin.2, decide (50 ≤ fin.1)⟩

/-! ## Specification-side helpers for the cheapest/most-expensive analysis -/

/-- Running minimum of the totals, seeded with `m`. -/
def minFrom (m : ℤ) (bs : List CostBreakdown) : ℤ :=
  bs.foldl (fun a b => min a b.total_jpy) m

/-- Running maximum of the totals, seeded with `m`. -/
def maxFrom (m : ℤ) (bs : List CostBreakdown) : ℤ :=
  bs.foldl (fun a b => max a b.total_jpy) m

end Majikari

/-! # Theorems -/

namespace Majikari

/-! ## Generic lemmas about the cheapest/most-expensive folds -/

theorem minFrom_le_init (bs : List CostBreakdown) : ∀ m : ℤ, minFrom m bs ≤ m := by
  induction bs with
  | nil => intro m; simp [minFrom]
  | cons b bs ih =>
    intro m
    have h := ih (min m b.total_jpy)
    simp only [minFrom, List.foldl] at h ⊢
    exact le_trans h (min_le_left _ _)

theorem minFrom_le_mem (bs : List CostBreakdown) :
    ∀ m : ℤ, ∀ b ∈ bs, minFrom m bs ≤ b.total_jpy := by
  induction bs with
  | nil => intro m b hb; simp at hb
  | cons c bs ih =>
    intro m b hb
    rcases List.mem_cons.1 hb with h | h
    · subst h
      have := minFrom_le_init bs (min m b.total_jpy)
      simp only [minFrom, List.foldl] at this ⊢
      exact le_trans this (min_le_right _ _)
    · simpa only [minFrom, List.foldl] using ih (min m c.total_jpy) b h

theorem minFrom_attained (bs : List CostBreakdown) :
    ∀ m : ℤ, minFrom m bs = m ∨ ∃ b ∈ bs, minFrom m bs = b.total_jpy := by
  induction bs with
  | nil => intro m; left; simp [minFrom]
  | cons c bs ih =>
    intro m
    rcases ih (min m c.total_jpy) with h | ⟨b, hb, he⟩
    · simp only [minFrom, List.foldl] at h ⊢
      rcases le_total m c.total_jpy with hle | hle
      · left; rw [h, min_eq_left hle]
      · right; exact ⟨c, List.mem_cons_self _ _, by rw [h, min_eq_right hle]⟩
    · right
      exact ⟨b, List.mem_cons_of_mem _ hb, by simpa only [minFrom, List.foldl] using he⟩

theorem maxFrom_init_le (bs : List CostBreakdown) : ∀ m : ℤ, m ≤ maxFrom m bs := by
  induction bs with
  | nil => intro m; simp [maxFrom]
  | cons b bs ih =>
    intro m
    have h := ih (max m b.total_jpy)
    simp only [maxFrom, List.foldl] at h ⊢
    exact le_trans (le_max_left _ _) h

theorem maxFrom_mem_le (bs : List CostBreakdown) :
    ∀ m : ℤ, ∀ b ∈ bs, b.total_jpy ≤ maxFrom m bs := by
  induction bs with
  | nil => intro m b hb; simp at hb
  | cons c bs ih =>
    intro m b hb
    rcases List.mem_cons.1 hb with h | h
    · subst h
      have := maxFrom_init_le bs (max m b.total_jpy)
      simp only [maxFrom, List.foldl] at this ⊢
      exact le_trans (le_max_right _ _) this
    · simpa only [maxFrom, List.foldl] using ih (max m c.total_jpy) b h

theorem maxFrom_attained (bs : List CostBreakdown) :
    ∀ m : ℤ, maxFrom m bs = m ∨ ∃ b ∈ bs, maxFrom m bs = b.total_jpy := by
  induction bs with
  | nil => intro m; left; simp [maxFrom]
  | cons c bs ih =>
    intro m
    rcases ih (max m c.total_jpy) with h | ⟨b, hb, he⟩
    · simp only [maxFrom, List.foldl] at h ⊢
      rcases le_total m c.total_jpy with hle | hle
      · right; exact ⟨c, List.mem_cons_self _ _, by rw [h, max_eq_right hle]⟩
      · left; rw [h, max_eq_left hle]
    · right
      exact ⟨b, List.mem_cons_of_mem _ hb, by simpa only [maxFrom, List.foldl] using he⟩

theorem cheapStep_some (n : String) (m : ℤ) (b : CostBreakdown) :
    cheapStep (n, some m) b =
      if b.total_jpy < m then (b.proxy, some b.total_jpy) else (n, some m) := by
  simp only [cheapStep]
  by_cases h : b.total_jpy < m <;> simp [h]

/-- The cheapest fold started from a finite state computes the running minimum,
and the recorded name is the seed's when nothing is strictly below the seed,
else the proxy of the first breakdown attaining the minimum. -/
theorem cheapFold_from (bs : List CostBreakdown) :
    ∀ (n : String) (m : ℤ),
      bs.foldl cheapStep (n, some m) =
        (if minFrom m bs = m then n
         else ((bs.find? (fun b => b.total_jpy == minFrom m bs)).map (·.proxy)).getD "",
         some (minFrom m bs)) := by
  induction bs with
  | nil => intro n m; simp [minFrom]
  | cons b bs ih =>
    intro n m
    rw [List.foldl_cons, cheapStep_some]
    by_cases hb : b.total_jpy < m
    · rw [if_pos hb, ih]
      have hmin : minFrom m (b :: bs) = minFrom b.total_jpy bs := by
        simp only [minFrom, List.foldl, min_eq_right (le_of_lt hb)]
      have hlei := minFrom_le_init bs b.total_jpy
      have hne : ¬ minFrom m (b :: bs) = m := by rw [hmin]; omega
      rw [if_neg hne, hmin]
      by_cases heq : minFrom b.total_jpy bs = b.total_jpy
      · rw [if_pos heq]
        rw [List.find?_cons_of_pos _ (by simp [heq])]
        simp
      · rw [if_neg heq]
        rw [List.find?_cons_of_neg _ (by simp; omega)]
    · rw [if_neg hb, ih]
      push_neg at hb
      have hmin : minFrom m (b :: bs) = minFrom m bs := by
        simp only [minFrom, List.foldl, min_eq_left hb]
      rw [hmin]
      by_cases heq : minFrom m bs = m
      · rw [if_pos heq, if_pos heq]
      · have hlei := minFrom_le_init bs m
        rw [List.find?_cons_of_neg _ (by simp; omega)]

theorem expStep_eq (n : String) (m : ℤ) (b : CostBreakdown) :
    expStep (n, m) b = if m < b.total_jpy then (b.proxy, b.total_jpy) else (n, m) := rfl

/-- The most-expensive fold computes the running maximum; the recorded name is
the seed's when nothing strictly exceeds the seed, else the proxy of the first
breakdown attaining the maximum. -/
theorem expFold_from (bs : List CostBreakdown) :
    ∀ (n : String) (m : ℤ),
      bs.foldl expStep (n, m) =
        (if maxFrom m bs = m then n
         else ((bs.find? (fun b => b.total_jpy == maxFrom m bs)).map (·.proxy)).getD "",
         maxFrom m bs) := by
  induction bs with
  | nil => intro n m; simp [maxFrom]
  | cons b bs ih =>
    intro n m
    rw [List.foldl_cons, expStep_eq]
    by_cases hb : m < b.total_jpy
    · rw [if_pos hb, ih]
      have hmax : maxFrom m (b :: bs) = maxFrom b.total_jpy bs := by
        simp only [maxFrom, List.foldl, max_eq_right (le_of_lt hb)]
      have hlei := maxFrom_init_le bs b.total_jpy
      have hne : ¬ maxFrom m (b :: bs) = m := by rw [hmax]; omega
      rw [if_neg hne, hmax]
      by_cases heq : maxFrom b.total_jpy bs = b.total_jpy
      · rw [if_pos heq]
        rw [List.find?_cons_of_pos _ (by simp [heq])]
        simp
      · rw [if_neg heq]
        rw [List.find?_cons_of_neg _ (by simp; omega)]
    · rw [if_neg hb, ih]
      push_neg at hb
      have hmax : maxFrom m (b :: bs) = maxFrom m bs := by
        simp only [maxFrom, List.foldl, max_eq_left hb]
      rw [hmax]
      by_cases heq : maxFrom m bs = m
      · rw [if_pos heq, if_pos heq]
      · have hlei := maxFrom_init_le bs m
        rw [List.find?_cons_of_neg _ (by simp; omega)]

end Majikari

namespace Majikari

/-! ## Supporting lemmas for the landed-cost calculator -/

theorem estimateShipping_ge_2000 (w : ℚ) : 2000 ≤ estimateShipping w := by
  simp only [estimateShipping, EMS_SHIPPING_TIERS, estimateShippingGo]
  split_ifs <;> norm_num

theorem serviceBreakdown_identity (svc : ProxyService) (p : ℤ) (w : ℚ) :
    (serviceBreakdown svc p w).item_jpy + (serviceBreakdown svc p w).fees_jpy +
      (serviceBreakdown svc p w).shipping_jpy + (serviceBreakdown svc p w).duty_jpy =
      (serviceBreakdown svc p w).total_jpy := by
  simp only [serviceBreakdown, DOMESTIC_SHIPPING_JPY]
  ring

theorem serviceBreakdown_pre (svc : ProxyService) (p : ℤ) (w : ℚ) :
    (serviceBreakdown svc p w).total_jpy - (serviceBreakdown svc p w).duty_jpy =
      p + DOMESTIC_SHIPPING_JPY + svc.serviceFee +
        jsRound (((p + DOMESTIC_SHIPPING_JPY : ℤ) : ℚ) * svc.fxMarkup) +
        jsRound (((p + DOMESTIC_SHIPPING_JPY : ℤ) : ℚ) * svc.paymentFee) +
        estimateShipping w := by
  simp only [serviceBreakdown]
  ring

theorem serviceBreakdown_duty_cases (svc : ProxyService) (p : ℤ) (w : ℚ) :
    ((((serviceBreakdown svc p w).total_jpy - (serviceBreakdown svc p w).duty_jpy : ℤ) : ℚ) /
        JPY_USD_RATE ≤ US_DE_MINIMIS_USD → (serviceBreakdown svc p w).duty_jpy = 0) ∧
    (US_DE_MINIMIS_USD <
        (((serviceBreakdown svc p w).total_jpy - (serviceBreakdown svc p w).duty_jpy : ℤ) : ℚ) /
          JPY_USD_RATE →
      (serviceBreakdown svc p w).duty_jpy =
        jsRound
          (((((serviceBreakdown svc p w).total_jpy - (serviceBreakdown svc p w).duty_jpy : ℤ) : ℚ) /
              JPY_USD_RATE - US_DE_MINIMIS_USD) * US_DUTY_RATE * JPY_USD_RATE)) := by
  simp only [serviceBreakdown]
  rw [add_sub_cancel_right]
  split_ifs with h
  · exact ⟨fun hle => absurd h (not_lt.2 hle), fun _ => rfl⟩
  · exact ⟨fun _ => rfl, fun hlt => absurd hlt h⟩

theorem serviceBreakdown_duty_nonneg (svc : ProxyService) (p : ℤ) (w : ℚ) :
    0 ≤ (serviceBreakdown svc p w).duty_jpy := by
  simp only [serviceBreakdown, US_DE_MINIMIS_USD, US_DUTY_RATE, JPY_USD_RATE]
  split_ifs with h
  · exact jsRound_nonneg
      (mul_nonneg (mul_nonneg (sub_nonneg.2 h.le) (by norm_num)) (by norm_num))
  · norm_num

theorem serviceBreakdown_total_pos (svc : ProxyService) (p : ℤ) (w : ℚ)
    (hp : 0 < p) (hfee : 0 ≤ svc.serviceFee) (hfx : 0 ≤ svc.fxMarkup)
    (hpay : 0 ≤ svc.paymentFee) : 0 < (serviceBreakdown svc p w).total_jpy := by
  have hship := estimateShipping_ge_2000 w
  have hduty := serviceBreakdown_duty_nonneg svc p w
  have hsub : (0:ℚ) ≤ ((p + DOMESTIC_SHIPPING_JPY : ℤ) : ℚ) := by
    simp only [DOMESTIC_SHIPPING_JPY]
    push_cast
    have : (0:ℚ) < (p : ℚ) := by exact_mod_cast hp
    linarith
  have hfx' : 0 ≤ jsRound (((p + DOMESTIC_SHIPPING_JPY : ℤ) : ℚ) * svc.fxMarkup) :=
    jsRound_nonneg (mul_nonneg hsub hfx)
  have hpay' : 0 ≤ jsRound (((p + DOMESTIC_SHIPPING_JPY : ℤ) : ℚ) * svc.paymentFee) :=
    jsRound_nonneg (mul_nonneg hsub hpay)
  simp only [serviceBreakdown, DOMESTIC_SHIPPING_JPY] at hduty ⊢
  simp only [DOMESTIC_SHIPPING_JPY] at hfx' hpay'
  omega

end Majikari

namespace Majikari

/-- The cheapest fold over a nonempty breakdown list selects the minimum total
and the proxy of the first breakdown attaining it. -/
theorem cheapFold_spec (b : CostBreakdown) (bs : List CostBreakdown) :
    ((b :: bs).foldl cheapStep ("", none)).2 = some (minFrom b.total_jpy bs) ∧
    ((b :: bs).find? (fun x => x.total_jpy == minFrom b.total_jpy bs)).map (·.proxy) =
      some ((b :: bs).foldl cheapStep ("", none)).1 := by
  have h0 : cheapStep ("", none) b = (b.proxy, some b.total_jpy) := by simp [cheapStep]
  rw [List.foldl_cons, h0, cheapFold_from]
  refine ⟨rfl, ?_⟩
  by_cases heq : minFrom b.total_jpy bs = b.total_jpy
  · rw [List.find?_cons_of_pos _ (by simp [heq]), if_pos heq]
    simp
  · have hle := minFrom_le_init bs b.total_jpy
    rw [List.find?_cons_of_neg _ (by simp; omega), if_neg heq]
    rcases minFrom_attained bs b.total_jpy with h | ⟨x, hx, he⟩
    · exact absurd h heq
    · have hsome : (bs.find? (fun y => y.total_jpy == minFrom b.total_jpy bs)).isSome :=
        List.find?_isSome.2 ⟨x, hx, by simp [he]⟩
      rcases Option.isSome_iff_exists.1 hsome with ⟨y, hy⟩
      rw [hy]
      simp

/-- The most-expensive fold over a nonempty breakdown list whose head has a
positive total selects the maximum total and the proxy of the first breakdown
attaining it. -/
theorem expFold_spec (b : CostBreakdown) (bs : List CostBreakdown) (hpos : 0 < b.total_jpy) :
    ((b :: bs).foldl expStep ("", 0)).2 = maxFrom b.total_jpy bs ∧
    ((b :: bs).find? (fun x => x.total_jpy == maxFrom b.total_jpy bs)).map (·.proxy) =
      some ((b :: bs).foldl expStep ("", 0)).1 := by
  have h0 : expStep ("", 0) b = (b.proxy, b.total_jpy) := by
    rw [expStep_eq, if_pos hpos]
  rw [List.foldl_cons, h0, expFold_from]
  refine ⟨rfl, ?_⟩
  by_cases heq : maxFrom b.total_jpy bs = b.total_jpy
  · rw [List.find?_cons_of_pos _ (by simp [heq]), if_pos heq]
    simp
  · have hle := maxFrom_init_le bs b.total_jpy
    rw [List.find?_cons_of_neg _ (by simp; omega), if_neg heq]
    rcases maxFrom_attained bs b.total_jpy with h | ⟨x, hx, he⟩
    · exact absurd h heq
    · have hsome : (bs.find? (fun y => y.total_jpy == maxFrom b.total_jpy bs)).isSome :=
        List.find?_isSome.2 ⟨x, hx, by simp [he]⟩
      rcases Option.isSome_iff_exists.1 hsome with ⟨y, hy⟩
      rw [hy]
      simp

end Majikari

namespace Majikari

/-! ## Claim C3 -/

/-- **C3.** For every integer item price, every weight, and every configured
service, the returned `CostBreakdown` satisfies
`item_jpy + fees_jpy + shipping_jpy + duty_jpy = total_jpy` exactly in integer
arithmetic (each multiplicative fee term is rounded independently inside
`fees_jpy`/`duty_jpy` before this summation). -/
theorem cost_total_identity (priceJpy : ℤ) (weightKg : ℚ) (kv : String × CostBreakdown)
    (h : kv ∈ (calculateProxyCosts priceJpy weightKg).breakdown) :
    kv.2.item_jpy + kv.2.fees_jpy + kv.2.shipping_jpy + kv.2.duty_jpy = kv.2.total_jpy := by
  simp only [calculateProxyCosts, PROXY_SERVICES, List.map, List.mem_cons,
    List.not_mem_nil, or_false] at h
  rcases h with h | h | h | h <;> (subst h; exact serviceBreakdown_identity _ _ _)

/-- Witness for C3 at price 3500 JPY, weight 0.8 kg, service Neokyo. -/
theorem cost_total_identity_witness :
    (("neokyo", serviceBreakdown ⟨"Neokyo", 350, 0, 29/1000⟩ 3500 (4/5)) ∈
        (calculateProxyCosts 3500 (4/5)).breakdown) ∧
    (serviceBreakdown ⟨"Neokyo", 350, 0, 29/1000⟩ 3500 (4/5)).item_jpy +
        (serviceBreakdown ⟨"Neokyo", 350, 0, 29/1000⟩ 3500 (4/5)).fees_jpy +
        (serviceBreakdown ⟨"Neokyo", 350, 0, 29/1000⟩ 3500 (4/5)).shipping_jpy +
        (serviceBreakdown ⟨"Neokyo", 350, 0, 29/1000⟩ 3500 (4/5)).duty_jpy =
      (serviceBreakdown ⟨"Neokyo", 350, 0, 29/1000⟩ 3500 (4/5)).total_jpy :=
  ⟨by simp [calculateProxyCosts, PROXY_SERVICES],
   cost_total_identity 3500 (4/5)
     ("neokyo", serviceBreakdown ⟨"Neokyo", 350, 0, 29/1000⟩ 3500 (4/5))
     (by simp [calculateProxyCosts, PROXY_SERVICES])⟩

/-! ## Claim C10 -/

/-- **C10.** `estimateShipping` is total over all numeric weights and always
positive: any weight ≤ 0.5 kg (including zero and negative weights) yields the
first tier's 2000 JPY, weights within the table yield the cost of the smallest
tier whose breakpoint is ≥ the weight, and weights beyond 5.0 kg yield the flat
10500 JPY. -/
theorem estimateShipping_total_positive (w : ℚ) :
    0 < estimateShipping w ∧
    (w ≤ 1/2 → estimateShipping w = 2000) ∧
    (1/2 < w → w ≤ 1 → estimateShipping w = 2900) ∧
    (1 < w → w ≤ 3/2 → estimateShipping w = 3700) ∧
    (3/2 < w → w ≤ 2 → estimateShipping w = 4500) ∧
    (2 < w → w ≤ 3 → estimateShipping w = 5900) ∧
    (3 < w → w ≤ 5 → estimateShipping w = 8700) ∧
    (5 < w → estimateShipping w = 10500) := by
  simp only [estimateShipping, EMS_SHIPPING_TIERS, estimateShippingGo]
  split_ifs <;>
    refine ⟨by norm_num, ?_, ?_, ?_, ?_, ?_, ?_, ?_⟩ <;> intros <;> first | rfl | linarith

/-- Witness for C10 at weights −1 kg (degenerate, still first tier) and 6 kg
(beyond the table). -/
theorem estimateShipping_total_positive_witness :
    (0 < estimateShipping (-1) ∧ estimateShipping (-1) = 2000) ∧ estimateShipping 6 = 10500 :=
  ⟨⟨(estimateShipping_total_positive (-1)).1,
    (estimateShipping_total_positive (-1)).2.1 (by norm_num)⟩,
   (estimateShipping_total_positive 6).2.2.2.2.2.2.2 (by norm_num)⟩

/-! ## Claim C2 (corrected) -/

/-- **C2** (counterexample). The claim says `calculateProxyCosts(3500, 0.8)`
resolves international shipping to 2000 JPY and yields a Neokyo total of
6672 JPY; the code's EMS table places 0.8 kg in the ≤ 1.0 kg tier, i.e.
2900 JPY, and the Neokyo total is 7572 JPY. -/
theorem scenario4_counterexample :
    estimateShipping (4/5) = 2900 ∧
    ((calculateProxyCosts 3500 (4/5)).breakdown.find? (fun kv => kv.1 == "neokyo")).map
        (fun kv => kv.2.total_jpy) = some 7572 ∧
    ¬ ((calculateProxyCosts 3500 (4/5)).breakdown.find? (fun kv => kv.1 == "neokyo")).map
        (fun kv => kv.2.total_jpy) = some 6672 := by
  have h : (calculateProxyCosts 3500 (4/5)).breakdown.find? (fun kv => kv.1 == "neokyo") =
      some ("neokyo", serviceBreakdown ⟨"Neokyo", 350, 0, 29/1000⟩ 3500 (4/5)) := rfl
  have h2 : (serviceBreakdown ⟨"Neokyo", 350, 0, 29/1000⟩ 3500 (4/5)).total_jpy = 7572 := by
    norm_num [serviceBreakdown, estimateShipping, estimateShippingGo, EMS_SHIPPING_TIERS,
      jsRound, round2, JPY_USD_RATE, DOMESTIC_SHIPPING_JPY, US_DE_MINIMIS_USD, US_DUTY_RATE]
  refine ⟨?_, ?_, ?_⟩
  · norm_num [estimateShipping, estimateShippingGo, EMS_SHIPPING_TIERS]
  · rw [h, Option.map_some', h2]
  · rw [h, Option.map_some', h2]
    simp

/-- **C2** (amended). `calculateProxyCosts(3500, 0.8)` yields for Neokyo
(serviceFee 350, fxMarkup 0, paymentFee 0.029): subtotal 4200,
`fees_jpy = 350 + round(4200×0) + round(4200×0.029) = 472`, international
shipping 2900 (the ≤ 1.0 kg tier; `shipping_jpy` also folds in the 700 JPY
domestic estimate), pre-duty total 7572 JPY, duty 0 (7572/155 ≈ 48.85 < 800),
and final totals 7572 JPY and 48.85 USD. -/
theorem scenario4_neokyo :
    ((calculateProxyCosts 3500 (4/5)).breakdown.find? (fun kv => kv.1 == "neokyo")).map (·.2) =
      some { proxy := "Neokyo", item_jpy := 3500, fees_jpy := 472, shipping_jpy := 3600,
             duty_jpy := 0, total_jpy := 7572, total_usd := 977/20 } := by
  have h : (calculateProxyCosts 3500 (4/5)).breakdown.find? (fun kv => kv.1 == "neokyo") =
      some ("neokyo", serviceBreakdown ⟨"Neokyo", 350, 0, 29/1000⟩ 3500 (4/5)) := rfl
  rw [h, Option.map_some']
  norm_num [serviceBreakdown, estimateShipping, estimateShippingGo, EMS_SHIPPING_TIERS,
    jsRound, round2, JPY_USD_RATE, DOMESTIC_SHIPPING_JPY, US_DE_MINIMIS_USD, US_DUTY_RATE]

/-! ## Claim C4 (corrected) -/

/-- **C4** (counterexample). At price 117523 JPY, weight 0.5 kg, Neokyo's
pre-duty total is 124001 JPY = 800.006… USD — strictly above the 800 USD
threshold — yet the duty is 0, because round((0.006 USD) × 4.5% × 155) = 0.
This refutes "duty is zero only if the pre-duty total does not exceed the
threshold". -/
theorem duty_threshold_counterexample :
    ((calculateProxyCosts 117523 (1/2)).breakdown.find? (fun kv => kv.1 == "neokyo")).map
        (fun kv => (kv.2.duty_jpy, kv.2.total_jpy)) = some (0, 124001) ∧
    US_DE_MINIMIS_USD < ((124001 : ℤ) : ℚ) / JPY_USD_RATE := by
  have h : (calculateProxyCosts 117523 (1/2)).breakdown.find? (fun kv => kv.1 == "neokyo") =
      some ("neokyo", serviceBreakdown ⟨"Neokyo", 350, 0, 29/1000⟩ 117523 (1/2)) := rfl
  constructor
  · rw [h, Option.map_some']
    norm_num [serviceBreakdown, estimateShipping, estimateShippingGo, EMS_SHIPPING_TIERS,
      jsRound, round2, JPY_USD_RATE, DOMESTIC_SHIPPING_JPY, US_DE_MINIMIS_USD, US_DUTY_RATE]
  · norm_num [US_DE_MINIMIS_USD, JPY_USD_RATE]

/-- **C4** (amended). For every price, weight and configured service: duty is 0
whenever the pre-duty total converted to USD is ≤ the 800 USD threshold; when
it exceeds the threshold, duty = round((amount over threshold) × 4.5% × 155)
JPY and is added to the running total (`pre-duty = total_jpy - duty_jpy`).
The rounded duty can itself be 0 for totals within 11 JPY above the
threshold, so "zero iff below threshold" does not hold. -/
theorem duty_characterization (priceJpy : ℤ) (weightKg : ℚ) (kv : String × CostBreakdown)
    (h : kv ∈ (calculateProxyCosts priceJpy weightKg).breakdown) :
    ((((kv.2.total_jpy - kv.2.duty_jpy : ℤ) : ℚ) / JPY_USD_RATE ≤ US_DE_MINIMIS_USD →
        kv.2.duty_jpy = 0) ∧
      (US_DE_MINIMIS_USD < ((kv.2.total_jpy - kv.2.duty_jpy : ℤ) : ℚ) / JPY_USD_RATE →
        kv.2.duty_jpy =
          jsRound ((((kv.2.total_jpy - kv.2.duty_jpy : ℤ) : ℚ) / JPY_USD_RATE -
            US_DE_MINIMIS_USD) * US_DUTY_RATE * JPY_USD_RATE))) := by
  simp only [calculateProxyCosts, PROXY_SERVICES, List.map, List.mem_cons,
    List.not_mem_nil, or_false] at h
  rcases h with h | h | h | h <;> (subst h; exact serviceBreakdown_duty_cases _ _ _)

/-- Witness for C4 at price 3500 JPY, weight 0.8 kg, Neokyo (below threshold,
duty 0). -/
theorem duty_characterization_witness :
    (("neokyo", serviceBreakdown ⟨"Neokyo", 350, 0, 29/1000⟩ 3500 (4/5)) ∈
        (calculateProxyCosts 3500 (4/5)).breakdown) ∧
    ((((serviceBreakdown ⟨"Neokyo", 350, 0, 29/1000⟩ 3500 (4/5)).total_jpy -
          (serviceBreakdown ⟨"Neokyo", 350, 0, 29/1000⟩ 3500 (4/5)).duty_jpy : ℤ) : ℚ) /
        JPY_USD_RATE ≤ US_DE_MINIMIS_USD) ∧
    (serviceBreakdown ⟨"Neokyo", 350, 0, 29/1000⟩ 3500 (4/5)).duty_jpy = 0 :=
  ⟨by simp [calculateProxyCosts, PROXY_SERVICES],
   by norm_num [serviceBreakdown, estimateShipping, estimateShippingGo, EMS_SHIPPING_TIERS,
        jsRound, round2, JPY_USD_RATE, DOMESTIC_SHIPPING_JPY, US_DE_MINIMIS_USD, US_DUTY_RATE],
   (duty_characterization 3500 (4/5)
     ("neokyo", serviceBreakdown ⟨"Neokyo", 350, 0, 29/1000⟩ 3500 (4/5))
     (by simp [calculateProxyCosts, PROXY_SERVICES])).1
     (by norm_num [serviceBreakdown, estimateShipping, estimateShippingGo, EMS_SHIPPING_TIERS,
        jsRound, round2, JPY_USD_RATE, DOMESTIC_SHIPPING_JPY, US_DE_MINIMIS_USD, US_DUTY_RATE])⟩

end Majikari

namespace Majikari

/-! ## Claim C5 -/

/-- **C5.** For every call (under the documented precondition of a validated
positive price), cheapest and most-expensive are selected by comparing
`total_jpy` across all configured services, with ties resolving to the first
service in the fixed iteration order (`find?` returns the first breakdown
attaining the extremum), `savings_jpy` is their difference, and whenever two
services have distinct totals the savings are strictly positive. -/
theorem cheapest_most_expensive_selection (p : ℤ) (w : ℚ) (hp : 0 < p) :
    (∀ kv ∈ (calculateProxyCosts p w).breakdown,
        (calculateProxyCosts p w).cheapest_total_jpy ≤ kv.2.total_jpy) ∧
    ((((calculateProxyCosts p w).breakdown.map (·.2)).find?
        (fun b => b.total_jpy == (calculateProxyCosts p w).cheapest_total_jpy)).map (·.proxy) =
      some (calculateProxyCosts p w).cheapest_proxy) ∧
    (∀ kv ∈ (calculateProxyCosts p w).breakdown,
        kv.2.total_jpy ≤ (calculateProxyCosts p w).most_expensive_total_jpy) ∧
    ((((calculateProxyCosts p w).breakdown.map (·.2)).find?
        (fun b => b.total_jpy == (calculateProxyCosts p w).most_expensive_total_jpy)).map
          (·.proxy) =
      some (calculateProxyCosts p w).most_expensive_proxy) ∧
    ((calculateProxyCosts p w).savings_jpy =
      (calculateProxyCosts p w).most_expensive_total_jpy -
        (calculateProxyCosts p w).cheapest_total_jpy) ∧
    (∀ kv1 ∈ (calculateProxyCosts p w).breakdown, ∀ kv2 ∈ (calculateProxyCosts p w).breakdown,
        kv1.2.total_jpy ≠ kv2.2.total_jpy → 0 < (calculateProxyCosts p w).savings_jpy) := by
  have hpos : 0 < (serviceBreakdown ⟨"Buyee", 500, 35/1000, 3/100⟩ p w).total_jpy :=
    serviceBreakdown_total_pos _ p w hp (by norm_num) (by norm_num) (by norm_num)
  obtain ⟨hcv, hcn⟩ := cheapFold_spec (serviceBreakdown ⟨"Buyee", 500, 35/1000, 3/100⟩ p w)
    [serviceBreakdown ⟨"ZenMarket", 300, 3/100, 35/1000⟩ p w,
     serviceBreakdown ⟨"FromJapan", 200, 8/100, 0⟩ p w,
     serviceBreakdown ⟨"Neokyo", 350, 0, 29/1000⟩ p w]
  obtain ⟨hmv, hmn⟩ := expFold_spec (serviceBreakdown ⟨"Buyee", 500, 35/1000, 3/100⟩ p w)
    [serviceBreakdown ⟨"ZenMarket", 300, 3/100, 35/1000⟩ p w,
     serviceBreakdown ⟨"FromJapan", 200, 8/100, 0⟩ p w,
     serviceBreakdown ⟨"Neokyo", 350, 0, 29/1000⟩ p w] hpos
  simp only [calculateProxyCosts, PROXY_SERVICES, List.map] at *
  rw [hcv, hmv]
  simp only [Option.getD_some]
  set b1 := serviceBreakdown ⟨"Buyee", 500, 35/1000, 3/100⟩ p w with hb1
  set b2 := serviceBreakdown ⟨"ZenMarket", 300, 3/100, 35/1000⟩ p w with hb2
  set b3 := serviceBreakdown ⟨"FromJapan", 200, 8/100, 0⟩ p w with hb3
  set b4 := serviceBreakdown ⟨"Neokyo", 350, 0, 29/1000⟩ p w with hb4
  have hminle : ∀ kv ∈ [("buyee", b1), ("zenmarket", b2), ("fromjapan", b3), ("neokyo", b4)],
      minFrom b1.total_jpy [b2, b3, b4] ≤ kv.2.total_jpy := by
    intro kv hkv
    simp only [List.mem_cons, List.not_mem_nil, or_false] at hkv
    rcases hkv with rfl | rfl | rfl | rfl
    · exact minFrom_le_init _ _
    · exact minFrom_le_mem _ _ _ (by simp)
    · exact minFrom_le_mem _ _ _ (by simp)
    · exact minFrom_le_mem _ _ _ (by simp)
  have hmaxle : ∀ kv ∈ [("buyee", b1), ("zenmarket", b2), ("fromjapan", b3), ("neokyo", b4)],
      kv.2.total_jpy ≤ maxFrom b1.total_jpy [b2, b3, b4] := by
    intro kv hkv
    simp only [List.mem_cons, List.not_mem_nil, or_false] at hkv
    rcases hkv with rfl | rfl | rfl | rfl
    · exact maxFrom_init_le _ _
    · exact maxFrom_mem_le _ _ _ (by simp)
    · exact maxFrom_mem_le _ _ _ (by simp)
    · exact maxFrom_mem_le _ _ _ (by simp)
  refine ⟨hminle, hcn, hmaxle, hmn, trivial, ?_⟩
  intro kv1 h1 kv2 h2 hne
  have l1 := hminle kv1 h1
  have l2 := hminle kv2 h2
  have u1 := hmaxle kv1 h1
  have u2 := hmaxle kv2 h2
  omega

/-- Witness for C5 at price 1000 JPY, weight 0.8 kg. -/
theorem cheapest_most_expensive_selection_witness :
    (0 : ℤ) < 1000 ∧
    ((∀ kv ∈ (calculateProxyCosts 1000 (4/5)).breakdown,
        (calculateProxyCosts 1000 (4/5)).cheapest_total_jpy ≤ kv.2.total_jpy) ∧
    ((((calculateProxyCosts 1000 (4/5)).breakdown.map (·.2)).find?
        (fun b => b.total_jpy == (calculateProxyCosts 1000 (4/5)).cheapest_total_jpy)).map
          (·.proxy) =
      some (calculateProxyCosts 1000 (4/5)).cheapest_proxy) ∧
    (∀ kv ∈ (calculateProxyCosts 1000 (4/5)).breakdown,
        kv.2.total_jpy ≤ (calculateProxyCosts 1000 (4/5)).most_expensive_total_jpy) ∧
    ((((calculateProxyCosts 1000 (4/5)).breakdown.map (·.2)).find?
        (fun b => b.total_jpy ==
          (calculateProxyCosts 1000 (4/5)).most_expensive_total_jpy)).map (·.proxy) =
      some (calculateProxyCosts 1000 (4/5)).most_expensive_proxy) ∧
    ((calculateProxyCosts 1000 (4/5)).savings_jpy =
      (calculateProxyCosts 1000 (4/5)).most_expensive_total_jpy -
        (calculateProxyCosts 1000 (4/5)).cheapest_total_jpy) ∧
    (∀ kv1 ∈ (calculateProxyCosts 1000 (4/5)).breakdown,
      ∀ kv2 ∈ (calculateProxyCosts 1000 (4/5)).breakdown,
        kv1.2.total_jpy ≠ kv2.2.total_jpy →
          0 < (calculateProxyCosts 1000 (4/5)).savings_jpy)) :=
  ⟨by decide, cheapest_most_expensive_selection 1000 (4/5) (by decide)⟩

end Majikari

namespace Majikari

/-! ## Claim C9 (corrected) -/

theorem ifsingle_any (p : Prop) [Decidable p] (a : String) (P : String → Bool) :
    ((if p then [a] else []) : List String).any P = ((decide p) && P a) := by
  by_cases h : p
  · rw [if_pos h, decide_eq_true h]
    simp only [List.any_cons, List.any_nil, Bool.or_false, Bool.true_and]
  · rw [if_neg h, decide_eq_false h]
    simp only [List.any_nil, Bool.false_and]

theorem riskFlags_any_high (l : RawListing) : (riskFlags l).any highFlagB = highSeverity l := by
  simp only [riskFlags, highSeverity, List.any_append, ifsingle_any]
  rw [(by decide : highFlagB "Suspiciously cheap" = true),
    (by decide : highFlagB "Premium price — verify" = false),
    (by decide : highFlagB "Condition not specified" = false),
    (by decide : highFlagB "Junk/damaged" = true),
    (by decide : highFlagB "Possible bootleg" = true),
    (by decide : highFlagB "Bundle listing" = false),
    (by decide : highFlagB "Parts only" = false),
    (by decide : highFlagB "No box" = false)]
  simp [Bool.or_assoc]

/-- **C9** (counterexample). A listing priced below 500 JPY with a condition
field and no junk/bootleg indicator gets a single "Suspiciously cheap" flag,
and the code classifies it **high** (the high-severity check also matches
`'Suspiciously'`), where the claim says such a listing is "medium". -/
theorem risk_suspicious_counterexample :
    assessRisk ⟨"m2", "フィギュア", 100, some "good", []⟩ = ("high", ["Suspiciously cheap"]) := by
  decide

/-- **C9** (amended). The risk tier is "high" exactly when a high-severity
condition holds — a junk/damaged indicator, a counterfeit/bootleg indicator,
**or the suspiciously-cheap price flag** (the source's high check also matches
the substring `'Suspiciously'`); "medium" when at least one flag is present
but no high-severity condition holds; "low" exactly when no flags are
present. -/
theorem risk_tier_characterization (l : RawListing) :
    ((assessRisk l).1 = "high" ↔ highSeverity l = true) ∧
    ((assessRisk l).1 = "medium" ↔ ((assessRisk l).2 ≠ [] ∧ highSeverity l = false)) ∧
    ((assessRisk l).1 = "low" ↔ (assessRisk l).2 = []) := by
  have hany := riskFlags_any_high l
  show (riskOf (riskFlags l) = "high" ↔ highSeverity l = true) ∧
       (riskOf (riskFlags l) = "medium" ↔ (riskFlags l ≠ [] ∧ highSeverity l = false)) ∧
       (riskOf (riskFlags l) = "low" ↔ riskFlags l = [])
  unfold riskOf
  by_cases hfe : (riskFlags l).isEmpty
  · have hnil : riskFlags l = [] := by simpa using hfe
    have hfs : highSeverity l = false := by rw [← hany, hnil]; rfl
    rw [if_pos hfe]
    refine ⟨iff_of_false (by decide) (by simp [hfs]),
            iff_of_false (by decide) ?_,
            iff_of_true rfl hnil⟩
    rintro ⟨hne, -⟩
    exact hne hnil
  · have hnonnil : riskFlags l ≠ [] := by simpa using hfe
    rw [if_neg hfe]
    by_cases hh : (riskFlags l).any highFlagB = true
    · have hhs : highSeverity l = true := by rw [← hany]; exact hh
      rw [if_pos hh]
      refine ⟨iff_of_true rfl hhs, iff_of_false (by decide) ?_, iff_of_false (by decide) hnonnil⟩
      rintro ⟨-, hf⟩
      rw [hhs] at hf
      simp at hf
    · have hhs : highSeverity l = false := by rw [← hany]; simpa using hh
      rw [if_neg hh]
      exact ⟨iff_of_false (by decide) (by simp [hhs]),
             iff_of_true rfl ⟨hnonnil, hhs⟩,
             iff_of_false (by decide) hnonnil⟩

/-- Witness for C9 on a junk-flagged listing (risk "high"). -/
theorem risk_tier_characterization_witness :
    ((assessRisk ⟨"m3", "ジャンク フィギュア", 3000, some "bad", []⟩).1 = "high" ↔
      highSeverity ⟨"m3", "ジャンク フィギュア", 3000, some "bad", []⟩ = true) ∧
    (assessRisk ⟨"m3", "ジャンク フィギュア", 3000, some "bad", []⟩).1 = "high" :=
  ⟨(risk_tier_characterization ⟨"m3", "ジャンク フィギュア", 3000, some "bad", []⟩).1,
   (risk_tier_characterization ⟨"m3", "ジャンク フィギュア", 3000, some "bad", []⟩).1.2
     (by decide)⟩

end Majikari

namespace Majikari

/-! ## Resolver inversion lemmas -/

theorem toNat_ofNat_valid {n : Nat} (h : n.isValidChar) : (Char.ofNat n).toNat = n := by
  simp only [Char.ofNat, h, dite_true, Char.toNat]
  rfl

theorem jsToLowerChar_idem (c : Char) : jsToLowerChar (jsToLowerChar c) = jsToLowerChar c := by
  unfold jsToLowerChar
  by_cases h1 : 65 ≤ c.toNat ∧ c.toNat ≤ 90
  · rw [if_pos h1]
    have hv : (c.toNat + 32).isValidChar := Or.inl (by omega)
    have ht := toNat_ofNat_valid hv
    rw [if_neg (by omega), if_neg (by omega)]
  · rw [if_neg h1]
    by_cases h2 : 0xFF21 ≤ c.toNat ∧ c.toNat ≤ 0xFF3A
    · rw [if_pos h2]
      have hv : (c.toNat + 32).isValidChar := Or.inr (by omega)
      have ht := toNat_ofNat_valid hv
      rw [if_neg (by omega), if_neg (by omega)]
    · rw [if_neg h2, if_neg h1, if_neg h2]

theorem map_lower_idem (l : List Char) :
    (l.map jsToLowerChar).map jsToLowerChar = l.map jsToLowerChar := by
  induction l with
  | nil => rfl
  | cons c t ih => simp only [List.map_cons, jsToLowerChar_idem, ih]

theorem toLowerJS_idem (s : String) : toLowerJS (toLowerJS s) = toLowerJS s := by
  unfold toLowerJS
  congr 1
  exact map_lower_idem s.data

/-- Every result of `matchListings` comes from a candidate listing on which the
loop body `scoreOne` succeeded. -/
theorem mem_matchListings {product : Product} {allListings : List RawListing} {r : MatchResult}
    (hr : r ∈ matchListings product allListings) :
    ∃ l ∈ allListings,
      scoreOne (toLowerJS (product.category.getD ""))
        (trimJS (dropVersionTailEn (dropSubtypeHeadEn product.name)))
        (trimJS (dropVersionTailJp (dropSubtypeHeadJp (product.name_jp.getD ""))))
        product.series product.series_jp l = some r := by
  unfold matchListings at hr
  have h1 := List.mem_of_mem_take hr
  have h2 := (List.perm_insertionSort resLE _).subset h1
  exact List.mem_filterMap.1 h2

/-- Inversion of the loop body: a produced result passed the category gate,
carries the listing's name and detected type, and — for specific-subtype
products — a generic ("figure"/"unknown") detected type forces score ≥ 0.8. -/
theorem scoreOne_some_facts {category enName jpName : String} {series seriesJp : Option String}
    {l : RawListing} {r : MatchResult}
    (h : scoreOne category enName jpName series seriesJp l = some r) :
    (categoryCompatible category (detectListingType l.name).type).ok = true ∧
    r.name = l.name ∧
    r.listing_type = (detectListingType l.name).type ∧
    (specificSubtypes.contains category = true →
      ((detectListingType l.name).type = "figure" ∨ (detectListingType l.name).type = "unknown") →
      80 ≤ r.score) := by
  simp only [scoreOne] at h
  split at h
  case isFalse hok => simp at h
  case isTrue hok =>
    split at h
    case isFalse => simp at h
    case isTrue hid =>
      split at h
      case isTrue hgate => simp at h
      case isFalse hgate =>
        split at h
        case isTrue hthr => simp at h
        case isFalse hthr =>
          rw [Option.some.injEq] at h
          subst h
          refine ⟨hok, rfl, rfl, ?_⟩
          intro hspec hgen
          simp only [hspec, Bool.true_and] at hgate
          have hgenb : ((detectListingType l.name).type == "figure" ||
              (detectListingType l.name).type == "unknown") = true := by
            rcases hgen with hg | hg <;> simp [hg]
          simp only [hgenb, Bool.true_and] at hgate
          simp only [decide_eq_true_eq] at hgate
          dsimp only
          omega

theorem categoryCompatible_merch_reject (cat : String)
    (hcat : FIGURE_CATEGORIES.contains (toLowerJS cat) = true) :
    (categoryCompatible cat "merch").ok = false := by
  simp only [categoryCompatible]
  rw [if_pos (by simp only [beq_self_eq_true, Bool.true_and]; exact hcat)]

/-! ## Claim C6 -/

/-- **C6.** For every product and candidate collection, the resolver's result
list has length at most 10 and is pairwise ordered by strictly decreasing
score with ascending price among equal scores (`resLE`). The function is pure,
so the ordering is deterministic for identical inputs; `List.insertionSort`
with this total preorder is the stable sort that ES2019+ `Array.sort`
computes. -/
theorem resolver_ranked_capped (product : Product) (allListings : List RawListing) :
    (matchListings product allListings).length ≤ 10 ∧
    (matchListings product allListings).Pairwise resLE := by
  constructor
  · exact List.length_take_le 10 _
  · exact List.Pairwise.sublist (List.take_sublist 10 _) (List.sorted_insertionSort resLE _)

/-! ## Claim C7 -/

/-- **C7.** For every product whose category is in the figure-category set and
every listing whose text the classifier types as "merch" (it contains a
non-figure merchandise keyword), the resolver never returns that listing,
regardless of name similarity. -/
theorem resolver_never_returns_merch (product : Product) (allListings : List RawListing)
    (hcat : FIGURE_CATEGORIES.contains (toLowerJS (product.category.getD "")) = true)
    (r : MatchResult) (hr : r ∈ matchListings product allListings) :
    (detectListingType r.name).type ≠ "merch" := by
  obtain ⟨l, _, hsome⟩ := mem_matchListings hr
  obtain ⟨hok, hname, -, -⟩ := scoreOne_some_facts hsome
  rw [hname]
  intro hmerch
  rw [hmerch] at hok
  rw [categoryCompatible_merch_reject _ (by rw [toLowerJS_idem]; exact hcat)] at hok
  exact absurd hok (by decide)

/-- Witness for C7: the nendoroid product and generic listing on which the
resolver does return a result; its detected type is not "merch". -/
theorem resolver_never_returns_merch_witness :
    (FIGURE_CATEGORIES.contains (toLowerJS ((⟨"GSC1", "Nendoroid Hitori Gotoh", some "後藤ひとり",
        some "Bocchi the Rock", none, some "nendoroid"⟩ : Product).category.getD "")) = true) ∧
    ((⟨"m1", "後藤ひとり hitori gotoh フィギュア", 5000, some "good", none,
        "https://jp.mercari.com/item/m1", 85, "Type:figure + JP: 後藤ひとり + EN: Hitori Gotoh",
        "figure", "low", []⟩ : MatchResult) ∈
      matchListings ⟨"GSC1", "Nendoroid Hitori Gotoh", some "後藤ひとり", some "Bocchi the Rock",
        none, some "nendoroid"⟩ [⟨"m1", "後藤ひとり hitori gotoh フィギュア", 5000, some "good", []⟩]) ∧
    (detectListingType (⟨"m1", "後藤ひとり hitori gotoh フィギュア", 5000, some "good", none,
        "https://jp.mercari.com/item/m1", 85, "Type:figure + JP: 後藤ひとり + EN: Hitori Gotoh",
        "figure", "low", []⟩ : MatchResult).name).type ≠ "merch" :=
  ⟨by decide, by decide,
   resolver_never_returns_merch
     ⟨"GSC1", "Nendoroid Hitori Gotoh", some "後藤ひとり", some "Bocchi the Rock", none,
       some "nendoroid"⟩
     [⟨"m1", "後藤ひとり hitori gotoh フィギュア", 5000, some "good", []⟩]
     (by decide) _ (by decide)⟩

end Majikari

namespace Majikari

/-! ## Claim C1 (corrected) -/

/-- Soundness of the subtype scan: a detected subtype tag comes with a keyword
of that tag's table entry occurring in the lowered name. -/
theorem subtypeHit_sound (nl : String) :
    ∀ (table : List (String × List String)) (st kw : String),
      subtypeHit nl table = some (st, kw) →
      ∃ kws, (st, kws) ∈ table ∧ kw ∈ kws ∧ containsSub nl (toLowerJS kw) = true := by
  intro table
  induction table with
  | nil => intro st kw h; simp [subtypeHit] at h
  | cons hd tl ih =>
    obtain ⟨t, ks⟩ := hd
    intro st kw h
    simp only [subtypeHit] at h
    rcases hfind : ks.find? (fun k => containsSub nl (toLowerJS k)) with - | k0
    · rw [hfind] at h
      obtain ⟨kws, hmem, hkw, hc⟩ := ih st kw h
      exact ⟨kws, List.mem_cons_of_mem _ hmem, hkw, hc⟩
    · rw [hfind] at h
      simp only [Option.some.injEq, Prod.mk.injEq] at h
      obtain ⟨h1, h2⟩ := h
      subst h1; subst h2
      exact ⟨ks, List.mem_cons_self _ _,
        List.mem_of_find?_eq_some hfind, by simpa using List.find?_some hfind⟩

/-- If the test-suite detector returns a subtype tag (neither "merch" nor
"unknown"), some keyword of that tag occurs in the listing name. -/
theorem detectTest_subtype (name st : String)
    (h : (detectListingTypeTest name).type = st) (hm : st ≠ "merch") (hu : st ≠ "unknown") :
    ∃ kws, (st, kws) ∈ FIGURE_SUBTYPE_KEYWORDS ∧
      ∃ kw ∈ kws, containsSub (toLowerJS name) (toLowerJS kw) = true := by
  simp only [detectListingTypeTest] at h
  split at h
  next kw heq =>
    dsimp only at h
    exact absurd h.symm hm
  next heq =>
    split at h
    next st0 kw heq2 =>
      dsimp only at h
      obtain ⟨kws, hmem, hkw, hc⟩ :=
        subtypeHit_sound (toLowerJS name) FIGURE_SUBTYPE_KEYWORDS st0 kw heq2
      subst h
      exact ⟨kws, hmem, kw, hkw, hc⟩
    next heq2 =>
      dsimp only at h
      exact absurd h.symm hu

/-- The strict scorer's Gate 2: a specific-subtype product whose listing text
contains no recognized keyword for that exact subtype is rejected outright. -/
theorem matchScore_gate2_reject (p : ScoreProduct) (listingName : String)
    (hc : specificTypes.contains (toLowerJS p.category) = true)
    (hno : ∀ kw ∈ subtypeKeywordsOf (replaceFirst (toLowerJS p.category) " " "_"),
      containsSub (toLowerJS listingName) (toLowerJS kw) = false) :
    (matchScore p listingName).score = 0 ∧ (matchScore p listingName).matched = false := by
  have hcases : toLowerJS p.category = "nendoroid" ∨ toLowerJS p.category = "figma" ∨
      toLowerJS p.category = "pop up parade" := by
    simpa [specificTypes] using hc
  have hd1 : (detectListingTypeTest listingName).type ≠
      replaceFirst (toLowerJS p.category) " " "_" := by
    intro heq
    rcases hcases with hcat | hcat | hcat <;> rw [hcat] at heq hno
    · rw [(by decide : replaceFirst "nendoroid" " " "_" = "nendoroid")] at heq hno
      obtain ⟨kws, hmem, kw, hkw, hcont⟩ := detectTest_subtype _ _ heq (by decide) (by decide)
      simp only [FIGURE_SUBTYPE_KEYWORDS] at hmem
      simp at hmem
      subst hmem
      rw [(by decide : subtypeKeywordsOf "nendoroid" =
        ["ねんどろいど", "nendoroid", "ネンドロイド"])] at hno
      exact absurd hcont (by simp [hno kw hkw])
    · rw [(by decide : replaceFirst "figma" " " "_" = "figma")] at heq hno
      obtain ⟨kws, hmem, kw, hkw, hcont⟩ := detectTest_subtype _ _ heq (by decide) (by decide)
      simp only [FIGURE_SUBTYPE_KEYWORDS] at hmem
      simp at hmem
      subst hmem
      rw [(by decide : subtypeKeywordsOf "figma" = ["figma", "フィグマ"])] at hno
      exact absurd hcont (by simp [hno kw hkw])
    · rw [(by decide : replaceFirst "pop up parade" " " "_" = "pop_up parade")] at heq
      obtain ⟨kws, hmem, -⟩ := detectTest_subtype _ _ heq (by decide) (by decide)
      simp [FIGURE_SUBTYPE_KEYWORDS] at hmem
  have hd2 : (detectListingTypeTest listingName).type ≠ toLowerJS p.category := by
    intro heq
    rcases hcases with hcat | hcat | hcat <;> rw [hcat] at heq
    · rw [hcat, (by decide : replaceFirst "nendoroid" " " "_" = "nendoroid")] at hd1
      exact hd1 heq
    · rw [hcat, (by decide : replaceFirst "figma" " " "_" = "figma")] at hd1
      exact hd1 heq
    · obtain ⟨kws, hmem, -⟩ := detectTest_subtype _ _ heq (by decide) (by decide)
      simp [FIGURE_SUBTYPE_KEYWORDS] at hmem
  have hpre : matchScorePre p listingName = .error ["Type mismatch"] ∨
      matchScorePre p listingName =
        .error ["Listing lacks " ++ toLowerJS p.category ++ " keyword"] := by
    simp only [matchScorePre]
    split
    · left; rfl
    · right; rw [if_pos ⟨hc, hd1, hd2⟩]
  rcases hpre with hpre | hpre <;> simp [matchScore, hpre]

/-- **C1** (counterexample). A nendoroid-category product and a listing whose
text contains no nendoroid keyword (detected type "figure"): the resolver
`matchListings` returns it anyway (score 0.85 ≥ 0.8), so "the resolver never
returns such a listing for such a product" is false on the code. -/
theorem specificity_gate_counterexample :
    ((["ねんどろいど", "nendoroid", "ネンドロイド"].all
        (fun kw => !(containsSub (toLowerJS "後藤ひとり hitori gotoh フィギュア")
          (toLowerJS kw)))) = true) ∧
    ((matchListings ⟨"GSC1", "Nendoroid Hitori Gotoh", some "後藤ひとり", some "Bocchi the Rock",
          none, some "nendoroid"⟩
        [⟨"m1", "後藤ひとり hitori gotoh フィギュア", 5000, some "good", []⟩]).map
          (fun r => (r.listing_id, r.listing_type, r.score)) = [("m1", "figure", 85)]) :=
  ⟨by decide, by decide⟩

/-- **C1** (amended). In the strict scorer (`matchScore`), absence of every
keyword of the product's exact subtype is an outright rejection (score 0,
no-match). The resolver (`matchListings`) does **not** reject such listings
outright: a listing whose detected type is generic ("figure"/"unknown") can be
returned for a specific-subtype product, but only when its accumulated score
reaches 0.8. -/
theorem specificity_gate :
    (∀ (p : ScoreProduct) (listingName : String),
      specificTypes.contains (toLowerJS p.category) = true →
      (∀ kw ∈ subtypeKeywordsOf (replaceFirst (toLowerJS p.category) " " "_"),
        containsSub (toLowerJS listingName) (toLowerJS kw) = false) →
      (matchScore p listingName).score = 0 ∧ (matchScore p listingName).matched = false) ∧
    (∀ (p : Product) (allListings : List RawListing) (r : MatchResult),
      r ∈ matchListings p allListings →
      specificSubtypes.contains (toLowerJS (p.category.getD "")) = true →
      (r.listing_type = "figure" ∨ r.listing_type = "unknown") →
      80 ≤ r.score) := by
  constructor
  · exact matchScore_gate2_reject
  · intro p allListings r hr hspec hgen
    obtain ⟨l, -, hsome⟩ := mem_matchListings hr
    obtain ⟨-, -, htype, himp⟩ := scoreOne_some_facts hsome
    exact himp hspec (by rw [← htype]; exact hgen)

/-- Witness for C1: the strict scorer rejects a keyword-less generic listing
for a nendoroid product, and the resolver result of the counterexample pair
indeed carries score ≥ 0.8. -/
theorem specificity_gate_witness :
    (specificTypes.contains
        (toLowerJS (⟨"Nendoroid Hatsune Miku", some "初音ミク", "nendoroid"⟩ :
          ScoreProduct).category) = true) ∧
    ((matchScore ⟨"Nendoroid Hatsune Miku", some "初音ミク", "nendoroid"⟩
        "初音ミク フィギュア").score = 0 ∧
      (matchScore ⟨"Nendoroid Hatsune Miku", some "初音ミク", "nendoroid"⟩
        "初音ミク フィギュア").matched = false) ∧
    80 ≤ (⟨"m1", "後藤ひとり hitori gotoh フィギュア", 5000, some "good", none,
      "https://jp.mercari.com/item/m1", 85, "Type:figure + JP: 後藤ひとり + EN: Hitori Gotoh",
      "figure", "low", []⟩ : MatchResult).score :=
  ⟨by decide,
   specificity_gate.1 ⟨"Nendoroid Hatsune Miku", some "初音ミク", "nendoroid"⟩
     "初音ミク フィギュア" (by decide) (by decide),
   specificity_gate.2
     ⟨"GSC1", "Nendoroid Hitori Gotoh", some "後藤ひとり", some "Bocchi the Rock", none,
       some "nendoroid"⟩
     [⟨"m1", "後藤ひとり hitori gotoh フィギュア", 5000, some "good", []⟩]
     ⟨"m1", "後藤ひとり hitori gotoh フィギュア", 5000, some "good", none,
       "https://jp.mercari.com/item/m1", 85, "Type:figure + JP: 後藤ひとり + EN: Hitori Gotoh",
       "figure", "low", []⟩
     (by decide) (by decide) (by decide)⟩

/-! ## Claim C8 -/

/-- **C8.** For a product whose name matches exactly one version pattern
(capturing term `v`), two listings that pass the gates with equal pre-version
scores and differ in containing `v`: the `v`-omitting listing scores strictly
lower (+0.20 bonus vs −0.30 penalty, a gap of exactly 0.50). -/
theorem version_penalty_monotone (p : ScoreProduct) (lA lB v : String)
    (s : ℤ) (rsA rsB : List String)
    (hv : versionCaptures p.name = [v])
    (hA : matchScorePre p lA = .ok (s, rsA))
    (hB : matchScorePre p lB = .ok (s, rsB))
    (hvA : containsSub (norm lA) v = true)
    (hvB : containsSub (norm lB) v = false) :
    (matchScore p lB).score < (matchScore p lA).score := by
  unfold matchScore
  rw [hA, hB, hv]
  simp only [List.foldl_cons, List.foldl_nil, versionStep, hvA, hvB, Bool.false_eq_true,
    eq_self_iff_true, if_true, if_false]
  omega

/-- Witness for C8: a swimsuit-version nendoroid against listings with and
without the version term. -/
theorem version_penalty_monotone_witness :
    versionCaptures (⟨"Nendoroid Hatsune Miku Swimsuit", some "初音ミク", "nendoroid"⟩ :
        ScoreProduct).name = ["swimsuit"] ∧
    matchScorePre ⟨"Nendoroid Hatsune Miku Swimsuit", some "初音ミク", "nendoroid"⟩
        "ねんどろいど 初音ミク swimsuit" = .ok (90, ["Type:nendoroid", "JP: 初音ミク"]) ∧
    matchScorePre ⟨"Nendoroid Hatsune Miku Swimsuit", some "初音ミク", "nendoroid"⟩
        "ねんどろいど 初音ミク" = .ok (90, ["Type:nendoroid", "JP: 初音ミク"]) ∧
    containsSub (norm "ねんどろいど 初音ミク swimsuit") "swimsuit" = true ∧
    containsSub (norm "ねんどろいど 初音ミク") "swimsuit" = false ∧
    (matchScore ⟨"Nendoroid Hatsune Miku Swimsuit", some "初音ミク", "nendoroid"⟩
        "ねんどろいど 初音ミク").score <
      (matchScore ⟨"Nendoroid Hatsune Miku Swimsuit", some "初音ミク", "nendoroid"⟩
        "ねんどろいど 初音ミク swimsuit").score :=
  ⟨by decide, by decide, by decide, by decide, by decide,
   version_penalty_monotone ⟨"Nendoroid Hatsune Miku Swimsuit", some "初音ミク", "nendoroid"⟩
     "ねんどろいど 初音ミク swimsuit" "ねんどろいど 初音ミク" "swimsuit" 90
     ["Type:nendoroid", "JP: 初音ミク"] ["Type:nendoroid", "JP: 初音ミク"]
     (by decide) (by decide) (by decide) (by decide) (by decide)⟩

end Majikari
